import Mathlib

/-!
A shallow embedding of the machine-combiner pass (`lib/CodeGen/MachineCombiner.cpp`)
and proofs about its cost model and substitution driver.

Modelling conventions:
* An instruction is a record of an identity, an opcode, an ordered operand list and
  a PHI flag.  External collaborators (the scheduling model `TargetSchedModel`, the
  register info `MachineRegisterInfo`, the per-block trace `Trace`, and the target
  instruction info `TargetInstrInfo`) are records of oracle functions, mirroring the
  queries the source makes.
* Machine latencies, depths, slacks and resource lengths are `Nat` cycles, as in the
  source (all the relevant C++ quantities are `unsigned` and no computation here can
  overflow a count of cycles in a way a claim depends on).
* Code paths that are undefined behaviour or debug-assertion failures in the source
  (indexing a `SmallVector` out of bounds, dereferencing a register-use iterator past
  the end of the use/def list, calling a depth/latency computation without a machine
  model) are modelled by `Option`: `none` means the C++ execution has no defined
  result there.
-/

set_option autoImplicit false

/-- `TargetRegisterInfo::isVirtualRegister`: virtual register numbers have the top
bit of the 32-bit register number set (`int(Reg) < 0`). -/
def isVirtualRegister (r : Nat) : Bool :=
  decide (2 ^ 31 ≤ r)

/-- A machine operand: either a register operand (`isReg = true`, with its register
number and def/use flag) or any other operand kind (`isReg = false`). -/
structure MachineOperand where
  isReg : Bool
  reg : Nat
  isDef : Bool
deriving DecidableEq

/-- `MachineOperand::isUse`: a register operand is a use iff it is not a def. -/
def MachineOperand.isUse (MO : MachineOperand) : Bool :=
  !MO.isDef

/-- A machine instruction: an identity (distinguishing the object even when opcode
and operands coincide), an opcode, an ordered operand list, and whether it is a PHI. -/
structure MachineInstr where
  id : Nat
  opcode : Nat
  operands : List MachineOperand
  isPHI : Bool
deriving DecidableEq

instance : Inhabited MachineInstr :=
  ⟨⟨0, 0, [], false⟩⟩

/-- `MachineInstr::findRegisterDefOperandIdx`: index of the first operand that is a
def of register `r`, or `-1` if there is none. -/
def MachineInstr.findRegisterDefOperandIdx (MI : MachineInstr) (r : Nat) : Int :=
  match MI.operands.findIdx? (fun MO => MO.isReg && MO.reg == r && MO.isDef) with
  | some i => (i : Int)
  | none => -1

/-- `MachineInstr::findRegisterUseOperandIdx`: index of the first operand that is a
use of register `r`, or `-1` if there is none. -/
def MachineInstr.findRegisterUseOperandIdx (MI : MachineInstr) (r : Nat) : Int :=
  match MI.operands.findIdx? (fun MO => MO.isReg && MO.reg == r && MO.isUse) with
  | some i => (i : Int)
  | none => -1

/-- The scheduling model adapter (`TargetSchedModel` plus the `MCSchedModel`
queries the source makes): availability flags and latency / scheduling-class
oracles.  Scheduling-class descriptors are modelled by their identity (`Nat`). -/
structure TargetSchedModel where
  hasInstrSchedModel : Bool
  hasItineraries : Bool
  computeOperandLatency : MachineInstr → Int → MachineInstr → Int → Nat
  computeInstrLatency : MachineInstr → Nat
  getSchedClass : Nat → Nat
  getSchedClassDesc : Nat → Nat

/-- `TargetSchedModel::hasInstrSchedModelOrItineraries`. -/
def TargetSchedModel.hasInstrSchedModelOrItineraries (TS : TargetSchedModel) : Bool :=
  TS.hasInstrSchedModel || TS.hasItineraries

/-- The register info (`MachineRegisterInfo`): the unique-virtual-register-def
lookup, and the register use/def operand list (`reg_begin` iteration) given as the
list of owning instructions of each operand entry; an entry is `none` when the
owning instruction has no parent recorded (`getParent()` is null). -/
structure MachineRegisterInfo where
  getUniqueVRegDef : Nat → Option MachineInstr
  regUseDefChain : Nat → List (Option MachineInstr)

/-- The per-block trace (`MachineTraceMetrics::Trace`): cached instruction depth
and slack, the in-trace dependence test, and the block resource length optionally
adjusted by hypothetical added/removed scheduling classes (the unadjusted length is
`resourceLength [] []`). -/
structure Trace where
  depth : MachineInstr → Nat
  slack : MachineInstr → Nat
  isDepInTrace : MachineInstr → MachineInstr → Bool
  resourceLength : List Nat → List Nat → Nat

/-- `MachineCombinerPattern`: the four reassociation identifiers named by
`getCombinerObjective`, and every other (target-specific) pattern tag. -/
inductive MachineCombinerPattern where
  | REASSOC_AX_BY
  | REASSOC_AX_YB
  | REASSOC_XA_BY
  | REASSOC_XA_YB
  | Other (tag : Nat)
deriving DecidableEq

/-- `CombinerObjective`. -/
inductive CombinerObjective where
  | MustReduceDepth
  | Default
deriving DecidableEq

/-- `getCombinerObjective`: the four reassociation patterns demand a strict depth
reduction, every other pattern uses the default critical-path objective. -/
def getCombinerObjective : MachineCombinerPattern → CombinerObjective
  | .REASSOC_AX_BY => .MustReduceDepth
  | .REASSOC_AX_YB => .MustReduceDepth
  | .REASSOC_XA_BY => .MustReduceDepth
  | .REASSOC_XA_YB => .MustReduceDepth
  | .Other _ => .Default

/-- `MachineCombiner::getOperandDef`: the unique virtual-register definition of the
operand's register, with PHI definitions filtered out. -/
def getOperandDef (MRI : MachineRegisterInfo) (MO : MachineOperand) : Option MachineInstr :=
  let DefInstr : Option MachineInstr :=
    if MO.isReg && isVirtualRegister MO.reg then MRI.getUniqueVRegDef MO.reg else none
  match DefInstr with
  | some D => if D.isPHI then none else some D
  | none => none

/-- The operand-latency query the source issues in `getDepth` and `getLatency`:
`computeOperandLatency` between `DefInstr`'s def operand index for `r` and
`UseInstr`'s use operand index for `r`. -/
def operandLatencyBetween (TS : TargetSchedModel) (DefInstr UseInstr : MachineInstr)
    (r : Nat) : Nat :=
  TS.computeOperandLatency DefInstr (DefInstr.findRegisterDefOperandIdx r)
    UseInstr (UseInstr.findRegisterUseOperandIdx r)

/-- The inner operand loop of `MachineCombiner::getDepth`, accumulating `IDepth`.
`none` models the debug assertion `II->second < InstrDepth.size()` failing (an
out-of-range index in `InstrIdxForVirtReg`). -/
def getDepthOperandLoop (TS : TargetSchedModel) (MRI : MachineRegisterInfo) (t : Trace)
    (InsInstrs : List MachineInstr) (InstrIdxForVirtReg : List (Nat × Nat))
    (InstrDepth : List Nat) (InstrPtr : MachineInstr) :
    List MachineOperand → Nat → Option Nat
  | [], IDepth => some IDepth
  | MO :: MOs, IDepth =>
    if !(MO.isReg && isVirtualRegister MO.reg) then
      getDepthOperandLoop TS MRI t InsInstrs InstrIdxForVirtReg InstrDepth InstrPtr MOs IDepth
    else if !MO.isUse then
      getDepthOperandLoop TS MRI t InsInstrs InstrIdxForVirtReg InstrDepth InstrPtr MOs IDepth
    else
      match InstrIdxForVirtReg.lookup MO.reg with
      | some idx =>
        match InstrDepth[idx]?, InsInstrs[idx]? with
        | some DepthOp, some DefInstr =>
          let LatencyOp := operandLatencyBetween TS DefInstr InstrPtr MO.reg
          getDepthOperandLoop TS MRI t InsInstrs InstrIdxForVirtReg InstrDepth InstrPtr MOs
            (max IDepth (DepthOp + LatencyOp))
        | _, _ => none
      | none =>
        match getOperandDef MRI MO with
        | some DefInstr =>
          let DepthOp := t.depth DefInstr
          let LatencyOp := operandLatencyBetween TS DefInstr InstrPtr MO.reg
          getDepthOperandLoop TS MRI t InsInstrs InstrIdxForVirtReg InstrDepth InstrPtr MOs
            (max IDepth (DepthOp + LatencyOp))
        | none =>
          getDepthOperandLoop TS MRI t InsInstrs InstrIdxForVirtReg InstrDepth InstrPtr MOs
            (max IDepth (0 + 0))

/-- The outer instruction loop of `MachineCombiner::getDepth`, pushing each
instruction's depth onto `InstrDepth`. -/
def getDepthLoop (TS : TargetSchedModel) (MRI : MachineRegisterInfo) (t : Trace)
    (InsInstrs : List MachineInstr) (InstrIdxForVirtReg : List (Nat × Nat)) :
    List Nat → List MachineInstr → Option (List Nat)
  | InstrDepth, [] => some InstrDepth
  | InstrDepth, InstrPtr :: rest =>
    match getDepthOperandLoop TS MRI t InsInstrs InstrIdxForVirtReg InstrDepth InstrPtr
        InstrPtr.operands 0 with
    | none => none
    | some IDepth =>
      getDepthLoop TS MRI t InsInstrs InstrIdxForVirtReg (InstrDepth ++ [IDepth]) rest

/-- `MachineCombiner::getDepth`: depth of the last instruction of `InsInstrs`
("NewRoot").  `none` models the missing-model assertion firing, an out-of-range
`InstrIdxForVirtReg` index, or the out-of-bounds read `InstrDepth[size - 1]` when
`InsInstrs` is empty. -/
def getDepth (TS : TargetSchedModel) (MRI : MachineRegisterInfo)
    (InsInstrs : List MachineInstr) (InstrIdxForVirtReg : List (Nat × Nat))
    (t : Trace) : Option Nat :=
  if !TS.hasInstrSchedModelOrItineraries then none
  else
    match getDepthLoop TS MRI t InsInstrs InstrIdxForVirtReg [] InsInstrs with
    | none => none
    | some InstrDepth => InstrDepth[InsInstrs.length - 1]?

/-- The loop of `MachineCombiner::getLatency` over `NewRoot`'s operands.  For each
virtual-register def operand the source takes `reg_begin`, increments once, and
dereferences; `none` models that dereference when the use/def list has fewer than
two entries (undefined behaviour). -/
def getLatencyLoop (TS : TargetSchedModel) (MRI : MachineRegisterInfo) (t : Trace)
    (Root NewRoot : MachineInstr) :
    List MachineOperand → Nat → Option Nat
  | [], NewRootLatency => some NewRootLatency
  | MO :: MOs, NewRootLatency =>
    if !(MO.isReg && isVirtualRegister MO.reg) then
      getLatencyLoop TS MRI t Root NewRoot MOs NewRootLatency
    else if !MO.isDef then
      getLatencyLoop TS MRI t Root NewRoot MOs NewRootLatency
    else
      match (MRI.regUseDefChain MO.reg)[1]? with
      | none => none
      | some UseMO? =>
        let LatencyOp :=
          match UseMO? with
          | some UseMO =>
            if t.isDepInTrace Root UseMO then
              operandLatencyBetween TS NewRoot UseMO MO.reg
            else
              TS.computeInstrLatency NewRoot
          | none => TS.computeInstrLatency NewRoot
        getLatencyLoop TS MRI t Root NewRoot MOs (max NewRootLatency LatencyOp)

/-- `MachineCombiner::getLatency`: latency of `NewRoot` as the maximum over its
virtual-register defs of the per-def latency term. -/
def getLatency (TS : TargetSchedModel) (MRI : MachineRegisterInfo)
    (Root NewRoot : MachineInstr) (t : Trace) : Option Nat :=
  if !TS.hasInstrSchedModelOrItineraries then none
  else getLatencyLoop TS MRI t Root NewRoot NewRoot.operands 0

/-- `MachineCombiner::improvesCriticalPathLen`.  (The `MBB` parameter of the source
is unused by its body and omitted.)  `none` models the missing-model assertion, the
out-of-bounds `InsInstrs[size - 1]` on an empty candidate, or a `none` from
`getDepth` / `getLatency`. -/
def improvesCriticalPathLen (TS : TargetSchedModel) (MRI : MachineRegisterInfo)
    (Root : MachineInstr) (t : Trace)
    (InsInstrs DelInstrs : List MachineInstr)
    (InstrIdxForVirtReg : List (Nat × Nat))
    (Pattern : MachineCombinerPattern) : Option Bool :=
  if !TS.hasInstrSchedModelOrItineraries then none
  else
    match InsInstrs[InsInstrs.length - 1]? with
    | none => none
    | some NewRoot =>
      match getDepth TS MRI InsInstrs InstrIdxForVirtReg t with
      | none => none
      | some NewRootDepth =>
        let RootDepth := t.depth Root
        if getCombinerObjective Pattern = CombinerObjective.MustReduceDepth then
          some (decide (NewRootDepth < RootDepth))
        else
          match getLatency TS MRI Root NewRoot t with
          | none => none
          | some NewRootLatency =>
            let RootLatency :=
              DelInstrs.foldl (fun acc I => acc + TS.computeInstrLatency I) 0
            let RootSlack := t.slack Root
            let NewCycleCount := NewRootDepth + NewRootLatency
            let OldCycleCount := RootDepth + RootLatency + RootSlack
            some (decide (NewCycleCount ≤ OldCycleCount))

/-- `MachineCombiner::instr2instrSC`: map each instruction to its scheduling-class
descriptor via `TII->get(Opc).getSchedClass()` and `SchedModel.getSchedClassDesc`. -/
def instr2instrSC (TS : TargetSchedModel) (Instrs : List MachineInstr) : List Nat :=
  Instrs.map (fun InstrPtr => TS.getSchedClassDesc (TS.getSchedClass InstrPtr.opcode))

/-- `MachineCombiner::preservesResourceLen`: true when the new instructions do not
increase the block's resource length. -/
def preservesResourceLen (TS : TargetSchedModel) (t : Trace)
    (InsInstrs DelInstrs : List MachineInstr) : Bool :=
  if !TS.hasInstrSchedModel then true
  else
    let ResLenBeforeCombine := t.resourceLength [] []
    let InsInstrsSC := instr2instrSC TS InsInstrs
    let DelInstrsSC := instr2instrSC TS DelInstrs
    let ResLenAfterCombine := t.resourceLength InsInstrsSC DelInstrsSC
    decide (ResLenAfterCombine ≤ ResLenBeforeCombine)

/-- `MachineCombiner::doSubstitute`: substitute independently of the cost model
when optimizing for size with a shorter sequence, or when no machine model (neither
instruction-level nor itinerary-level) is available. -/
def doSubstitute (OptSize : Bool) (TS : TargetSchedModel) (NewSize OldSize : Nat) : Bool :=
  if OptSize && decide (NewSize < OldSize) then true
  else if !TS.hasInstrSchedModelOrItineraries then true
  else false

/-- The target instruction info (`TargetInstrInfo`) queries the driver makes: the
pattern enumeration (`none` models `getMachineCombinerPatterns` returning false),
the alternative-sequence synthesis producing the new instructions, the old
instructions and the new-virtual-register index map, and the throughput-pattern
flag. -/
structure TargetInstrInfo where
  getMachineCombinerPatterns : MachineInstr → Option (List MachineCombinerPattern)
  genAlternativeCodeSequence : MachineInstr → MachineCombinerPattern →
    List MachineInstr × List MachineInstr × List (Nat × Nat)
  isThroughputPattern : MachineCombinerPattern → Bool

/-- The outcome of the per-anchor pattern loop of `combineInstructions`:
which candidate (new instructions, old instructions) was accepted, if any; the
candidate instructions released via `DeleteMachineInstr` after rejection, in
release order; and how many `insertDeleteInstructions` substitutions and trace
invalidations the visit performed. -/
structure StepResult where
  accepted : Option (List MachineInstr × List MachineInstr)
  freed : List MachineInstr
  substitutions : Nat
  invalidations : Nat
deriving DecidableEq

/-- The `for (auto P : Patterns)` loop of `MachineCombiner::combineInstructions`
for anchor `MI`: try each pattern in order, accept the first that passes the
always-substitute checks or the cost model, release rejected candidates.  `none`
models an aborted execution (an assertion failure or undefined behaviour inside
`improvesCriticalPathLen`). -/
def tryPatterns (TII : TargetInstrInfo) (TS : TargetSchedModel)
    (MRI : MachineRegisterInfo) (OptSize ML : Bool) (t : Trace)
    (MI : MachineInstr) : List MachineCombinerPattern → Option StepResult
  | [] => some ⟨none, [], 0, 0⟩
  | P :: Ps =>
    let g := TII.genAlternativeCodeSequence MI P
    let InsInstrs := g.1
    let DelInstrs := g.2.1
    let InstrIdxForVirtReg := g.2.2
    if InsInstrs.length = 0 then
      tryPatterns TII TS MRI OptSize ML t MI Ps
    else
      let SubstituteAlways := ML && TII.isThroughputPattern P
      if SubstituteAlways || doSubstitute OptSize TS InsInstrs.length DelInstrs.length then
        some ⟨some (InsInstrs, DelInstrs), [], 1, 1⟩
      else
        match improvesCriticalPathLen TS MRI MI t InsInstrs DelInstrs InstrIdxForVirtReg P with
        | none => none
        | some improves =>
          if improves && preservesResourceLen TS t InsInstrs DelInstrs then
            some ⟨some (InsInstrs, DelInstrs), [], 1, 1⟩
          else
            match tryPatterns TII TS MRI OptSize ML t MI Ps with
            | none => none
            | some r => some ⟨r.accepted, InsInstrs ++ r.freed, r.substitutions, r.invalidations⟩

/-- The insertion half of `insertDeleteInstructions`: each new instruction is
inserted immediately before the first occurrence of `MI`, in sequence order. -/
def insertAllBefore (block : List MachineInstr) (MI : MachineInstr)
    (Ins : List MachineInstr) : List MachineInstr :=
  match block with
  | [] => []
  | I :: rest => if I = MI then Ins ++ I :: rest else I :: insertAllBefore rest MI Ins

/-- The deletion half of `insertDeleteInstructions`: every occurrence of an old
instruction is erased from the block (`eraseFromParentAndMarkDBGValuesForRemoval`). -/
def eraseAll (block : List MachineInstr) (Del : List MachineInstr) : List MachineInstr :=
  block.filter (fun I => !decide (I ∈ Del))

/-- The result of `MachineCombiner::combineInstructions` on one block: the final
instruction list, the changed flag, the number of trace invalidations, and all
candidate instructions released after rejection. -/
structure BlockResult where
  block : List MachineInstr
  changed : Bool
  invalidations : Nat
  freed : List MachineInstr
deriving DecidableEq

/-- The `while (BlockIter != MBB->end())` loop of
`MachineCombiner::combineInstructions`.  The block is `done ++ remaining`, with the
read cursor (already advanced past the current instruction before the body runs)
at the head of `remaining`.  `traceAt inval` is the trace the ensemble yields after
`inval` invalidations, modelling the invalidate-and-rebuild lifecycle.  On
acceptance the new instructions are spliced immediately before the anchor, the old
instructions are erased wherever they occur, and traversal resumes at the
instruction after the anchor's original position. -/
def combineGo (TII : TargetInstrInfo) (TS : TargetSchedModel)
    (MRI : MachineRegisterInfo) (OptSize ML : Bool) (traceAt : Nat → Trace) :
    List MachineInstr → List MachineInstr → Bool → Nat → List MachineInstr →
    Option BlockResult
  | done, [], changed, inval, freed => some ⟨done, changed, inval, freed⟩
  | done, MI :: rest, changed, inval, freed =>
    match TII.getMachineCombinerPatterns MI with
    | none => combineGo TII TS MRI OptSize ML traceAt (done ++ [MI]) rest changed inval freed
    | some Patterns =>
      match tryPatterns TII TS MRI OptSize ML (traceAt inval) MI Patterns with
      | none => none
      | some r =>
        match r.accepted with
        | none =>
          combineGo TII TS MRI OptSize ML traceAt (done ++ [MI]) rest changed
            (inval + r.invalidations) (freed ++ r.freed)
        | some (InsInstrs, DelInstrs) =>
          combineGo TII TS MRI OptSize ML traceAt
            (eraseAll ((done ++ InsInstrs) ++ [MI]) DelInstrs)
            (eraseAll rest DelInstrs) true (inval + r.invalidations) (freed ++ r.freed)
termination_by _ remaining _ _ _ => remaining.length
decreasing_by
  all_goals simp only [eraseAll, List.length_cons, Nat.lt_succ_iff]
  all_goals first
    | exact List.length_filter_le _ _
    | exact Nat.le_refl _

/-- `MachineCombiner::combineInstructions` on one basic block. -/
def combineInstructions (TII : TargetInstrInfo) (TS : TargetSchedModel)
    (MRI : MachineRegisterInfo) (OptSize ML : Bool) (traceAt : Nat → Trace)
    (block : List MachineInstr) : Option BlockResult :=
  combineGo TII TS MRI OptSize ML traceAt [] block false 0 []

/-! ### Specification-side definitions

The following definitions follow the specification's words (spec 4.1) rather than
the source, to be compared with the source-derived functions above. -/

/-- Spec wording of one use operand's contribution inside `computeDepth`:
`defDepth + operandLatency`, where a register defined earlier in the candidate
(per the map) takes the earlier instruction's already-computed depth, a register
with a unique non-PHI external definition takes the trace's cached depth of that
definition, and otherwise the term contributes 0. -/
def specUseTerm (TS : TargetSchedModel) (MRI : MachineRegisterInfo) (t : Trace)
    (InsInstrs : List MachineInstr) (InstrIdxForVirtReg : List (Nat × Nat))
    (depths : List Nat) (InstrPtr : MachineInstr) (MO : MachineOperand) : Nat :=
  match InstrIdxForVirtReg.lookup MO.reg with
  | some idx =>
    depths.getD idx 0 + operandLatencyBetween TS (InsInstrs.getD idx default) InstrPtr MO.reg
  | none =>
    match getOperandDef MRI MO with
    | some DefInstr => t.depth DefInstr + operandLatencyBetween TS DefInstr InstrPtr MO.reg
    | none => 0

/-- Spec wording of one instruction's depth: the maximum, over all
virtual-register use operands, of `defDepth + operandLatency`. -/
def specInstrDepth (TS : TargetSchedModel) (MRI : MachineRegisterInfo) (t : Trace)
    (InsInstrs : List MachineInstr) (InstrIdxForVirtReg : List (Nat × Nat))
    (depths : List Nat) (InstrPtr : MachineInstr) : Nat :=
  (InstrPtr.operands.filter
      (fun MO => MO.isReg && isVirtualRegister MO.reg && MO.isUse)).foldl
    (fun m MO => max m (specUseTerm TS MRI t InsInstrs InstrIdxForVirtReg depths InstrPtr MO)) 0

/-- Spec wording of `computeDepth`: process the candidate sequence in order,
assigning each instruction its depth, and return the depth assigned to the last
instruction of the sequence. -/
def computeDepthSpec (TS : TargetSchedModel) (MRI : MachineRegisterInfo) (t : Trace)
    (InsInstrs : List MachineInstr) (InstrIdxForVirtReg : List (Nat × Nat)) : Nat :=
  (InsInstrs.foldl
      (fun depths InstrPtr =>
        depths ++ [specInstrDepth TS MRI t InsInstrs InstrIdxForVirtReg depths InstrPtr]) []).getLastD 0

/-- Well-formedness of the new-virtual-register index map (the candidate
invariant of spec 3): every virtual register used by an instruction of the
candidate and tracked in the map is defined at a strictly earlier index of the
candidate. -/
def mapWellFormed (InsInstrs : List MachineInstr)
    (InstrIdxForVirtReg : List (Nat × Nat)) : Prop :=
  ∀ (i : Fin InsInstrs.length), ∀ MO ∈ (InsInstrs.get i).operands,
    (MO.isReg && isVirtualRegister MO.reg && MO.isUse) = true →
    ((InstrIdxForVirtReg.lookup MO.reg).all fun idx => decide (idx < i.val)) = true

/-- The "first consuming use" of a register read by `getLatency`: the owner of the
second entry of the register's use/def operand list.  (The candidate's new root is
not yet inserted into any block when `getLatency` runs, so its own def operand is
not in that list; the first entry is the existing definition's operand.) -/
def firstConsumingUse (MRI : MachineRegisterInfo) (r : Nat) : Option MachineInstr :=
  ((MRI.regUseDefChain r)[1]?).bind id

/-- Spec wording of the per-defined-register latency term of `computeLatency`:
the precise operand latency between the new root's definition and the first
consuming use when the trace recognizes that consumer as in-trace dependent on the
old root, and otherwise the new root's full no-operand-context latency. -/
def latencyTermSpec (TS : TargetSchedModel) (MRI : MachineRegisterInfo) (t : Trace)
    (Root NewRoot : MachineInstr) (r : Nat) : Nat :=
  match firstConsumingUse MRI r with
  | some UseMO =>
    if t.isDepInTrace Root UseMO then operandLatencyBetween TS NewRoot UseMO r
    else TS.computeInstrLatency NewRoot
  | none => TS.computeInstrLatency NewRoot

/-- Spec wording of `computeLatency`: the maximum, over every virtual register
defined by the new root, of that register's latency term (0 when the new root
defines no virtual register). -/
def getLatencySpec (TS : TargetSchedModel) (MRI : MachineRegisterInfo) (t : Trace)
    (Root NewRoot : MachineInstr) : Nat :=
  ((NewRoot.operands.filter
        (fun MO => MO.isReg && isVirtualRegister MO.reg && MO.isDef)).map
      (fun MO => MO.reg)).foldl
    (fun m r => max m (latencyTermSpec TS MRI t Root NewRoot r)) 0

/-! ### Concrete instances used by witness theorems -/

/-- A concrete scheduling model with an instruction-level model, used by witnesses. -/
def wTS1 : TargetSchedModel := ⟨true, false, fun _ _ _ _ => 1, fun _ => 2, id, id⟩

/-- A concrete register info with empty use/def chains, used by witnesses. -/
def wMRI1 : MachineRegisterInfo := ⟨fun _ => none, fun _ => []⟩

/-- A concrete anchor instruction, used by witnesses. -/
def wRoot1 : MachineInstr := ⟨10, 5, [], false⟩

/-- A concrete candidate root instruction, used by witnesses. -/
def wNewRoot1 : MachineInstr := ⟨11, 6, [], false⟩

/-- A concrete trace, used by witnesses. -/
def wTrace1 : Trace := ⟨fun _ => 3, fun _ => 1, fun _ _ => true, fun _ _ => 0⟩

/-- A concrete scheduling model with no instruction model and no itineraries. -/
def wTS0 : TargetSchedModel := ⟨false, false, fun _ _ _ _ => 1, fun _ => 2, id, id⟩

/-- A second concrete deletable instruction, used by witnesses. -/
def wDel2 : MachineInstr := ⟨12, 7, [], false⟩

/-- A concrete target instruction info with a single pattern whose candidate
replaces two instructions by one, used by witnesses. -/
def wTII4 : TargetInstrInfo :=
  ⟨fun _ => some [MachineCombinerPattern.Other 0],
   fun _ _ => ([wNewRoot1], [wRoot1, wDel2], []),
   fun _ => false⟩

/-- A concrete trace whose resource length grows with added classes, used to
exhibit a cost-model rejection. -/
def wTraceR : Trace := ⟨fun _ => 0, fun _ => 0, fun _ _ => true, fun a _ => a.length * 5⟩

/-- A concrete register info whose use/def chains have two entries, used by
witnesses. -/
def wMRI2 : MachineRegisterInfo := ⟨fun _ => none, fun _ => [some wRoot1, some wDel2]⟩

/-- A concrete new root defining one virtual register, used by witnesses. -/
def wNR2 : MachineInstr := ⟨13, 8, [⟨true, 2 ^ 31, true⟩], false⟩

/-- A concrete candidate instruction defining a fresh virtual register, used by
witnesses. -/
def wDef1 : MachineInstr := ⟨21, 30, [⟨true, 2 ^ 31, true⟩], false⟩

/-- A concrete candidate root using the earlier candidate definition, used by
witnesses. -/
def wUse2 : MachineInstr :=
  ⟨22, 31, [⟨true, 2 ^ 31 + 1, true⟩, ⟨true, 2 ^ 31, false⟩], false⟩

/-! ### Helper lemmas -/

theorem foldl_add_map_sum (f : MachineInstr → Nat) (a : Nat) (l : List MachineInstr) :
    l.foldl (fun acc I => acc + f I) a = a + (l.map f).sum := by
  induction l generalizing a with
  | nil => simp
  | cons x xs ih => simp [ih, Nat.add_assoc]

theorem list_getElem?_isSome {α : Type} (l : List α) (i : Nat) :
    (l[i]?).isSome = true ↔ i < l.length := by
  constructor
  · intro h
    by_contra hx
    rw [List.getElem?_eq_none (Nat.le_of_not_lt hx)] at h
    simp at h
  · intro h
    rw [List.getElem?_eq_getElem h]
    rfl

/-- The loop of `getLatency` has a defined result exactly when every
virtual-register def operand it reaches has at least two entries in its register
use/def list. -/
theorem getLatencyLoop_isSome (TS : TargetSchedModel) (MRI : MachineRegisterInfo)
    (t : Trace) (Root NewRoot : MachineInstr) :
    ∀ (MOs : List MachineOperand) (a : Nat),
      (getLatencyLoop TS MRI t Root NewRoot MOs a).isSome = true ↔
        ∀ MO ∈ MOs, (MO.isReg && isVirtualRegister MO.reg && MO.isDef) = true →
          2 ≤ (MRI.regUseDefChain MO.reg).length := by
  intro MOs
  induction MOs with
  | nil => simp [getLatencyLoop]
  | cons MO MOs ih =>
    intro a
    rw [getLatencyLoop]
    cases h1 : (MO.isReg && isVirtualRegister MO.reg) with
    | false =>
      simp only [Bool.not_false, if_true]
      rw [ih]
      constructor
      · intro hall MO' hmem hrel'
        rcases List.mem_cons.mp hmem with he | hm
        · subst he
          rw [h1] at hrel'
          simp at hrel'
        · exact hall MO' hm hrel'
      · intro hall MO' hmem hrel'
        exact hall MO' (List.mem_cons_of_mem _ hmem) hrel'
    | true =>
      simp only [Bool.not_true, Bool.false_eq_true, if_false]
      cases h2 : MO.isDef with
      | false =>
        simp only [Bool.not_false, if_true]
        rw [ih]
        constructor
        · intro hall MO' hmem hrel'
          rcases List.mem_cons.mp hmem with he | hm
          · subst he
            rw [h1, h2] at hrel'
            simp at hrel'
          · exact hall MO' hm hrel'
        · intro hall MO' hmem hrel'
          exact hall MO' (List.mem_cons_of_mem _ hmem) hrel'
      | true =>
        simp only [Bool.not_true, Bool.false_eq_true, if_false]
        match hc : (MRI.regUseDefChain MO.reg)[1]? with
        | none =>
          simp only [Option.isSome_none, Bool.false_eq_true, false_iff]
          intro hall
          have hrel : (MO.isReg && isVirtualRegister MO.reg && MO.isDef) = true := by
            simp [h1, h2]
          have h2le : (1 : Nat) < (MRI.regUseDefChain MO.reg).length :=
            hall MO (List.mem_cons_self MO MOs) hrel
          have hs : ((MRI.regUseDefChain MO.reg)[1]?).isSome = true :=
            (list_getElem?_isSome _ 1).mpr h2le
          rw [hc] at hs
          simp at hs
        | some UseMO? =>
          rw [ih]
          constructor
          · intro hall MO' hmem hrel'
            rcases List.mem_cons.mp hmem with he | hm
            · subst he
              exact (list_getElem?_isSome _ 1).mp (by rw [hc]; rfl)
            · exact hall MO' hm hrel'
          · intro hall MO' hmem hrel'
            exact hall MO' (List.mem_cons_of_mem _ hmem) hrel'

theorem getOperandDef_congr (MRI MRI' : MachineRegisterInfo)
    (hReg : MRI'.getUniqueVRegDef = MRI.getUniqueVRegDef) (MO : MachineOperand) :
    getOperandDef MRI' MO = getOperandDef MRI MO := by
  simp only [getOperandDef, hReg]

/-- The depth computation consults only the model-availability flags, the
operand-latency oracle, the unique-register-definition lookup and the trace's
cached depths. -/
theorem getDepthOperandLoop_congr (TS TS' : TargetSchedModel)
    (MRI MRI' : MachineRegisterInfo) (t t' : Trace)
    (InsInstrs : List MachineInstr) (InstrIdxForVirtReg : List (Nat × Nat))
    (InstrDepth : List Nat) (InstrPtr : MachineInstr)
    (hOp : TS'.computeOperandLatency = TS.computeOperandLatency)
    (hReg : MRI'.getUniqueVRegDef = MRI.getUniqueVRegDef)
    (hDep : t'.depth = t.depth) :
    ∀ (MOs : List MachineOperand) (IDepth : Nat),
      getDepthOperandLoop TS' MRI' t' InsInstrs InstrIdxForVirtReg InstrDepth InstrPtr MOs IDepth =
        getDepthOperandLoop TS MRI t InsInstrs InstrIdxForVirtReg InstrDepth InstrPtr MOs IDepth := by
  intro MOs
  induction MOs with
  | nil => intro IDepth; rfl
  | cons MO MOs ih =>
    intro IDepth
    rw [getDepthOperandLoop, getDepthOperandLoop]
    simp only [operandLatencyBetween, hOp, getOperandDef_congr MRI MRI' hReg, hDep, ih]

theorem getDepthLoop_congr (TS TS' : TargetSchedModel)
    (MRI MRI' : MachineRegisterInfo) (t t' : Trace)
    (InsInstrs : List MachineInstr) (InstrIdxForVirtReg : List (Nat × Nat))
    (hOp : TS'.computeOperandLatency = TS.computeOperandLatency)
    (hReg : MRI'.getUniqueVRegDef = MRI.getUniqueVRegDef)
    (hDep : t'.depth = t.depth) :
    ∀ (InstrDepth : List Nat) (Instrs : List MachineInstr),
      getDepthLoop TS' MRI' t' InsInstrs InstrIdxForVirtReg InstrDepth Instrs =
        getDepthLoop TS MRI t InsInstrs InstrIdxForVirtReg InstrDepth Instrs := by
  intro InstrDepth Instrs
  induction Instrs generalizing InstrDepth with
  | nil => rfl
  | cons InstrPtr rest ih =>
    rw [getDepthLoop, getDepthLoop,
      getDepthOperandLoop_congr TS TS' MRI MRI' t t' InsInstrs InstrIdxForVirtReg InstrDepth
        InstrPtr hOp hReg hDep]
    cases getDepthOperandLoop TS MRI t InsInstrs InstrIdxForVirtReg InstrDepth InstrPtr
        InstrPtr.operands 0 with
    | none => rfl
    | some IDepth => exact ih (InstrDepth ++ [IDepth])

theorem getDepth_congr (TS TS' : TargetSchedModel)
    (MRI MRI' : MachineRegisterInfo) (t t' : Trace)
    (InsInstrs : List MachineInstr) (InstrIdxForVirtReg : List (Nat × Nat))
    (hSM : TS'.hasInstrSchedModel = TS.hasInstrSchedModel)
    (hIt : TS'.hasItineraries = TS.hasItineraries)
    (hOp : TS'.computeOperandLatency = TS.computeOperandLatency)
    (hReg : MRI'.getUniqueVRegDef = MRI.getUniqueVRegDef)
    (hDep : t'.depth = t.depth) :
    getDepth TS' MRI' InsInstrs InstrIdxForVirtReg t' =
      getDepth TS MRI InsInstrs InstrIdxForVirtReg t := by
  have hM : TS'.hasInstrSchedModelOrItineraries = TS.hasInstrSchedModelOrItineraries := by
    simp only [TargetSchedModel.hasInstrSchedModelOrItineraries, hSM, hIt]
  rw [getDepth, getDepth, hM,
    getDepthLoop_congr TS TS' MRI MRI' t t' InsInstrs InstrIdxForVirtReg hOp hReg hDep]

/-- The loop of `getLatency` computes, when every reached def operand's use/def
list has at least two entries, the fold of the per-defined-register spec terms. -/
theorem getLatencyLoop_eq_spec (TS : TargetSchedModel) (MRI : MachineRegisterInfo)
    (t : Trace) (Root NewRoot : MachineInstr) :
    ∀ (MOs : List MachineOperand) (a : Nat),
      (∀ MO ∈ MOs, (MO.isReg && isVirtualRegister MO.reg && MO.isDef) = true →
        2 ≤ (MRI.regUseDefChain MO.reg).length) →
      getLatencyLoop TS MRI t Root NewRoot MOs a =
        some (((MOs.filter (fun MO => MO.isReg && isVirtualRegister MO.reg && MO.isDef)).map
            (fun MO => MO.reg)).foldl
          (fun m r => max m (latencyTermSpec TS MRI t Root NewRoot r)) a) := by
  intro MOs
  induction MOs with
  | nil => intro a _; rfl
  | cons MO MOs ih =>
    intro a hyp
    have hyp' : ∀ MO' ∈ MOs, (MO'.isReg && isVirtualRegister MO'.reg && MO'.isDef) = true →
        2 ≤ (MRI.regUseDefChain MO'.reg).length :=
      fun MO' hm hr => hyp MO' (List.mem_cons_of_mem _ hm) hr
    cases h1 : (MO.isReg && isVirtualRegister MO.reg) with
    | false =>
      rw [getLatencyLoop]
      simp only [h1, Bool.not_false, if_true]
      rw [ih a hyp']
      simp only [List.filter_cons, h1, Bool.false_and, Bool.false_eq_true, if_false]
    | true =>
      cases h2 : MO.isDef with
      | false =>
        rw [getLatencyLoop]
        simp only [h1, h2, Bool.not_true, Bool.not_false, Bool.false_eq_true, if_false, if_true]
        rw [ih a hyp']
        simp only [List.filter_cons, h1, h2, Bool.and_false, Bool.false_eq_true, if_false]
      | true =>
        have hlen : 2 ≤ (MRI.regUseDefChain MO.reg).length :=
          hyp MO (List.mem_cons_self _ _) (by simp [h1, h2])
        have hstep : getLatencyLoop TS MRI t Root NewRoot (MO :: MOs) a =
            getLatencyLoop TS MRI t Root NewRoot MOs
              (max a (latencyTermSpec TS MRI t Root NewRoot MO.reg)) := by
          rw [getLatencyLoop]
          simp only [h1, h2, Bool.not_true, Bool.false_eq_true, if_false]
          cases hc : (MRI.regUseDefChain MO.reg)[1]? with
          | none =>
            exfalso
            have hs : ((MRI.regUseDefChain MO.reg)[1]?).isSome = true :=
              (list_getElem?_isSome _ 1).mpr hlen
            rw [hc] at hs
            simp at hs
          | some entry =>
            simp only [latencyTermSpec, firstConsumingUse, hc, Option.some_bind, id_eq]
        rw [hstep, ih _ hyp']
        simp only [List.filter_cons, h1, h2, Bool.and_true, if_true, List.map_cons,
          List.foldl_cons]

/-- The operand loop of `getDepth` computes, when every mapped index reached is
in range, the fold of the per-use-operand spec terms. -/
theorem getDepthOperandLoop_eq_spec (TS : TargetSchedModel) (MRI : MachineRegisterInfo)
    (t : Trace) (InsInstrs : List MachineInstr) (InstrIdxForVirtReg : List (Nat × Nat))
    (InstrDepth : List Nat) (InstrPtr : MachineInstr) :
    ∀ (MOs : List MachineOperand) (a : Nat),
      (∀ MO ∈ MOs, (MO.isReg && isVirtualRegister MO.reg && MO.isUse) = true →
        ∀ idx, InstrIdxForVirtReg.lookup MO.reg = some idx →
          idx < InstrDepth.length ∧ idx < InsInstrs.length) →
      getDepthOperandLoop TS MRI t InsInstrs InstrIdxForVirtReg InstrDepth InstrPtr MOs a =
        some ((MOs.filter (fun MO => MO.isReg && isVirtualRegister MO.reg && MO.isUse)).foldl
          (fun m MO => max m
            (specUseTerm TS MRI t InsInstrs InstrIdxForVirtReg InstrDepth InstrPtr MO)) a) := by
  intro MOs
  induction MOs with
  | nil => intro a _; rfl
  | cons MO MOs ih =>
    intro a hyp
    have hyp' : ∀ MO' ∈ MOs, (MO'.isReg && isVirtualRegister MO'.reg && MO'.isUse) = true →
        ∀ idx, InstrIdxForVirtReg.lookup MO'.reg = some idx →
          idx < InstrDepth.length ∧ idx < InsInstrs.length :=
      fun MO' hm => hyp MO' (List.mem_cons_of_mem _ hm)
    cases h1 : (MO.isReg && isVirtualRegister MO.reg) with
    | false =>
      rw [getDepthOperandLoop]
      simp only [h1, Bool.not_false, if_true]
      rw [ih a hyp']
      simp only [List.filter_cons, h1, Bool.false_and, Bool.false_eq_true, if_false]
    | true =>
      cases h2 : MO.isUse with
      | false =>
        rw [getDepthOperandLoop]
        simp only [h1, h2, Bool.not_true, Bool.not_false, Bool.false_eq_true, if_false, if_true]
        rw [ih a hyp']
        simp only [List.filter_cons, h1, h2, Bool.and_false, Bool.false_eq_true, if_false]
      | true =>
        have hstep : getDepthOperandLoop TS MRI t InsInstrs InstrIdxForVirtReg InstrDepth
            InstrPtr (MO :: MOs) a =
            getDepthOperandLoop TS MRI t InsInstrs InstrIdxForVirtReg InstrDepth InstrPtr MOs
              (max a (specUseTerm TS MRI t InsInstrs InstrIdxForVirtReg InstrDepth
                InstrPtr MO)) := by
          rw [getDepthOperandLoop]
          simp only [h1, h2, Bool.not_true, Bool.false_eq_true, if_false]
          cases hl : InstrIdxForVirtReg.lookup MO.reg with
          | some idx =>
            have hb := hyp MO (List.mem_cons_self _ _) (by simp [h1, h2]) idx hl
            have hb1 := hb.1
            have hb2 := hb.2
            have hd1 : InstrDepth.getD idx 0 = InstrDepth[idx] := by
              rw [List.getD_eq_getElem?_getD, List.getElem?_eq_getElem hb1]
              rfl
            have hd2 : InsInstrs.getD idx default = InsInstrs[idx] := by
              rw [List.getD_eq_getElem?_getD, List.getElem?_eq_getElem hb2]
              rfl
            simp only [List.getElem?_eq_getElem hb1, List.getElem?_eq_getElem hb2,
              specUseTerm, hl, hd1, hd2]
          | none =>
            cases ho : getOperandDef MRI MO with
            | some DefInstr => simp only [specUseTerm, hl, ho]
            | none => simp only [specUseTerm, hl, ho, Nat.add_zero, Nat.zero_add]
        rw [hstep, ih _ hyp']
        simp only [List.filter_cons, h1, h2, Bool.and_true, if_true, List.foldl_cons]

/-- The instruction loop of `getDepth` computes the spec's depth sequence. -/
theorem getDepthLoop_eq_spec (TS : TargetSchedModel) (MRI : MachineRegisterInfo) (t : Trace)
    (InsInstrs : List MachineInstr) (InstrIdxForVirtReg : List (Nat × Nat)) :
    ∀ (Instrs : List MachineInstr) (InstrDepth : List Nat),
      (∀ (j : Fin Instrs.length), ∀ MO ∈ (Instrs.get j).operands,
          (MO.isReg && isVirtualRegister MO.reg && MO.isUse) = true →
          ∀ idx, InstrIdxForVirtReg.lookup MO.reg = some idx →
            idx < InstrDepth.length + j.val ∧ idx < InsInstrs.length) →
      getDepthLoop TS MRI t InsInstrs InstrIdxForVirtReg InstrDepth Instrs =
        some (Instrs.foldl
          (fun ds I => ds ++ [specInstrDepth TS MRI t InsInstrs InstrIdxForVirtReg ds I])
          InstrDepth) := by
  intro Instrs
  induction Instrs with
  | nil => intro InstrDepth _; rfl
  | cons I rest ih =>
    intro InstrDepth hyp
    have h0 : ∀ MO ∈ I.operands, (MO.isReg && isVirtualRegister MO.reg && MO.isUse) = true →
        ∀ idx, InstrIdxForVirtReg.lookup MO.reg = some idx →
          idx < InstrDepth.length ∧ idx < InsInstrs.length := by
      intro MO hm hr idx hl
      have h := hyp ⟨0, Nat.succ_pos _⟩ MO hm hr idx hl
      exact ⟨by simpa using h.1, h.2⟩
    have hol : getDepthOperandLoop TS MRI t InsInstrs InstrIdxForVirtReg InstrDepth I
        I.operands 0 =
        some (specInstrDepth TS MRI t InsInstrs InstrIdxForVirtReg InstrDepth I) :=
      getDepthOperandLoop_eq_spec TS MRI t InsInstrs InstrIdxForVirtReg InstrDepth I
        I.operands 0 h0
    rw [getDepthLoop, hol]
    simp only [List.foldl_cons]
    exact ih (InstrDepth ++ [specInstrDepth TS MRI t InsInstrs InstrIdxForVirtReg InstrDepth I])
      (by
        intro j MO hm hr idx hl
        have h := hyp ⟨j.val + 1, Nat.succ_lt_succ j.isLt⟩ MO hm hr idx hl
        refine ⟨?_, h.2⟩
        have h1 := h.1
        simp only [List.length_append, List.length_cons, List.length_nil] at h1 ⊢
        omega)

/-- The spec's depth sequence has one entry per candidate instruction. -/
theorem specDepthFold_length (TS : TargetSchedModel) (MRI : MachineRegisterInfo) (t : Trace)
    (InsInstrs : List MachineInstr) (InstrIdxForVirtReg : List (Nat × Nat)) :
    ∀ (Instrs : List MachineInstr) (depths : List Nat),
      (Instrs.foldl
          (fun ds I => ds ++ [specInstrDepth TS MRI t InsInstrs InstrIdxForVirtReg ds I])
          depths).length = depths.length + Instrs.length := by
  intro Instrs
  induction Instrs with
  | nil => intro depths; simp
  | cons I rest ih =>
    intro depths
    rw [List.foldl_cons, ih]
    simp only [List.length_append, List.length_cons, List.length_nil]
    omega

/-! ### Claim theorems -/

/-- C1: for every candidate whose pattern has the Default objective,
`improvesCriticalPathLen` accepts if and only if
`newRootDepth + newRootLatency ≤ rootDepth + rootLatency + rootSlack`, where
`newRootDepth` is the computed depth of the candidate, `newRootLatency` the
computed latency of the new root against the old root, `rootDepth` and `rootSlack`
the trace's cached depth and slack of the anchor root, and `rootLatency` the sum
over every deleted instruction of its full instruction latency. -/
theorem improvesCriticalPathLen_default_iff
    (TS : TargetSchedModel) (MRI : MachineRegisterInfo) (Root : MachineInstr) (t : Trace)
    (InsInstrs DelInstrs : List MachineInstr) (InstrIdxForVirtReg : List (Nat × Nat))
    (P : MachineCombinerPattern) (NewRoot : MachineInstr) (NewRootDepth NewRootLatency : Nat)
    (hObj : getCombinerObjective P = CombinerObjective.Default)
    (hM : TS.hasInstrSchedModelOrItineraries = true)
    (hNR : InsInstrs[InsInstrs.length - 1]? = some NewRoot)
    (hD : getDepth TS MRI InsInstrs InstrIdxForVirtReg t = some NewRootDepth)
    (hL : getLatency TS MRI Root NewRoot t = some NewRootLatency) :
    improvesCriticalPathLen TS MRI Root t InsInstrs DelInstrs InstrIdxForVirtReg P = some true ↔
      NewRootDepth + NewRootLatency ≤
        t.depth Root + (DelInstrs.map TS.computeInstrLatency).sum + t.slack Root := by
  simp only [improvesCriticalPathLen, hM, hNR, hD, hL, hObj, Bool.not_true,
    Bool.false_eq_true, if_false, reduceCtorEq, Option.some.injEq, decide_eq_true_eq,
    foldl_add_map_sum, Nat.zero_add]

/-- Concrete instantiation of `improvesCriticalPathLen_default_iff`. -/
theorem improvesCriticalPathLen_default_iff_witness :
    improvesCriticalPathLen ⟨true, false, fun _ _ _ _ => 1, fun _ => 2, id, id⟩
        ⟨fun _ => none, fun _ => []⟩ ⟨10, 5, [], false⟩
        ⟨fun _ => 3, fun _ => 1, fun _ _ => true, fun _ _ => 0⟩
        [⟨11, 6, [], false⟩] [] [] (MachineCombinerPattern.Other 0) = some true ↔
      0 + 0 ≤ (3 : Nat) + (([] : List MachineInstr).map (fun _ => 2)).sum + 1 :=
  improvesCriticalPathLen_default_iff ⟨true, false, fun _ _ _ _ => 1, fun _ => 2, id, id⟩
    ⟨fun _ => none, fun _ => []⟩ ⟨10, 5, [], false⟩
    ⟨fun _ => 3, fun _ => 1, fun _ _ => true, fun _ _ => 0⟩
    [⟨11, 6, [], false⟩] [] [] (MachineCombinerPattern.Other 0) ⟨11, 6, [], false⟩ 0 0
    rfl rfl rfl rfl rfl

/-- C2: for every candidate whose pattern has the MustReduceDepth objective (the
four reassociation pattern identifiers and only those), `improvesCriticalPathLen`
accepts if and only if the computed depth of the new root is strictly less than
the trace's cached depth of the anchor root; the new-root latency, the
deleted-instruction latencies, the slack, the in-trace dependence oracle and the
register use/def chains are not consulted for such patterns (result invariance
under arbitrary changes to them). -/
theorem improvesCriticalPathLen_mustReduceDepth_spec
    (TS : TargetSchedModel) (MRI : MachineRegisterInfo) (Root : MachineInstr) (t : Trace)
    (InsInstrs DelInstrs : List MachineInstr) (InstrIdxForVirtReg : List (Nat × Nat))
    (P : MachineCombinerPattern) (NewRootDepth : Nat)
    (hObj : getCombinerObjective P = CombinerObjective.MustReduceDepth)
    (hM : TS.hasInstrSchedModelOrItineraries = true)
    (hD : getDepth TS MRI InsInstrs InstrIdxForVirtReg t = some NewRootDepth)
    (hNE : InsInstrs ≠ []) :
    (improvesCriticalPathLen TS MRI Root t InsInstrs DelInstrs InstrIdxForVirtReg P =
        some (decide (NewRootDepth < t.depth Root)))
    ∧ (∀ P' : MachineCombinerPattern,
        getCombinerObjective P' = CombinerObjective.MustReduceDepth ↔
          P' = MachineCombinerPattern.REASSOC_AX_BY ∨
          P' = MachineCombinerPattern.REASSOC_AX_YB ∨
          P' = MachineCombinerPattern.REASSOC_XA_BY ∨
          P' = MachineCombinerPattern.REASSOC_XA_YB)
    ∧ (∀ (TS' : TargetSchedModel) (MRI' : MachineRegisterInfo) (t' : Trace)
          (DelInstrs' : List MachineInstr),
        TS'.hasInstrSchedModel = TS.hasInstrSchedModel →
        TS'.hasItineraries = TS.hasItineraries →
        TS'.computeOperandLatency = TS.computeOperandLatency →
        MRI'.getUniqueVRegDef = MRI.getUniqueVRegDef →
        t'.depth = t.depth →
        improvesCriticalPathLen TS' MRI' Root t' InsInstrs DelInstrs' InstrIdxForVirtReg P =
          improvesCriticalPathLen TS MRI Root t InsInstrs DelInstrs InstrIdxForVirtReg P) := by
  have hlt : InsInstrs.length - 1 < InsInstrs.length :=
    Nat.sub_lt (List.length_pos.mpr hNE) Nat.one_pos
  refine ⟨?_, ?_, ?_⟩
  · simp only [improvesCriticalPathLen, hM, Bool.not_true, Bool.false_eq_true, if_false,
      List.getElem?_eq_getElem hlt, hD, hObj, if_true]
  · intro P'
    cases P' <;> simp [getCombinerObjective]
  · intro TS' MRI' t' DelInstrs' hSM hIt hOp hReg hDep
    have hM' : TS'.hasInstrSchedModelOrItineraries = TS.hasInstrSchedModelOrItineraries := by
      simp only [TargetSchedModel.hasInstrSchedModelOrItineraries, hSM, hIt]
    rw [improvesCriticalPathLen, improvesCriticalPathLen, hM',
      getDepth_congr TS TS' MRI MRI' t t' InsInstrs InstrIdxForVirtReg hSM hIt hOp hReg hDep,
      hDep, hObj]
    simp only [if_true]

/-- Concrete instantiation of `improvesCriticalPathLen_mustReduceDepth_spec`. -/
theorem improvesCriticalPathLen_mustReduceDepth_spec_witness :
    (improvesCriticalPathLen wTS1 wMRI1 wRoot1 wTrace1 [wNewRoot1] [] []
        MachineCombinerPattern.REASSOC_AX_BY = some (decide (0 < wTrace1.depth wRoot1)))
    ∧ (∀ P' : MachineCombinerPattern,
        getCombinerObjective P' = CombinerObjective.MustReduceDepth ↔
          P' = MachineCombinerPattern.REASSOC_AX_BY ∨
          P' = MachineCombinerPattern.REASSOC_AX_YB ∨
          P' = MachineCombinerPattern.REASSOC_XA_BY ∨
          P' = MachineCombinerPattern.REASSOC_XA_YB)
    ∧ (∀ (TS' : TargetSchedModel) (MRI' : MachineRegisterInfo) (t' : Trace)
          (DelInstrs' : List MachineInstr),
        TS'.hasInstrSchedModel = wTS1.hasInstrSchedModel →
        TS'.hasItineraries = wTS1.hasItineraries →
        TS'.computeOperandLatency = wTS1.computeOperandLatency →
        MRI'.getUniqueVRegDef = wMRI1.getUniqueVRegDef →
        t'.depth = wTrace1.depth →
        improvesCriticalPathLen TS' MRI' wRoot1 t' [wNewRoot1] DelInstrs' []
            MachineCombinerPattern.REASSOC_AX_BY =
          improvesCriticalPathLen wTS1 wMRI1 wRoot1 wTrace1 [wNewRoot1] [] []
            MachineCombinerPattern.REASSOC_AX_BY) :=
  improvesCriticalPathLen_mustReduceDepth_spec wTS1 wMRI1 wRoot1 wTrace1 [wNewRoot1] [] []
    MachineCombinerPattern.REASSOC_AX_BY 0 rfl rfl rfl (by decide)

/-- C5: `preservesResourceLen` is true whenever the scheduling model has no
instruction-level resource model; otherwise it maps every candidate and every
deleted instruction to its scheduling-class descriptor and accepts iff the trace's
resource length under the hypothesis of adding the candidate's classes and
removing the deleted classes does not exceed the block's current resource length. -/
theorem preservesResourceLen_spec (TS : TargetSchedModel) (t : Trace)
    (InsInstrs DelInstrs : List MachineInstr) :
    (TS.hasInstrSchedModel = false → preservesResourceLen TS t InsInstrs DelInstrs = true)
    ∧ (TS.hasInstrSchedModel = true →
        (preservesResourceLen TS t InsInstrs DelInstrs = true ↔
          t.resourceLength
              (InsInstrs.map fun I => TS.getSchedClassDesc (TS.getSchedClass I.opcode))
              (DelInstrs.map fun I => TS.getSchedClassDesc (TS.getSchedClass I.opcode)) ≤
            t.resourceLength [] [])) := by
  constructor
  · intro h
    simp [preservesResourceLen, h]
  · intro h
    simp [preservesResourceLen, instr2instrSC, h]

/-- Concrete instantiation of `preservesResourceLen_spec`. -/
theorem preservesResourceLen_spec_witness :
    ((false = false → preservesResourceLen ⟨false, false, fun _ _ _ _ => 0, fun _ => 0, id, id⟩
        ⟨fun _ => 0, fun _ => 0, fun _ _ => true, fun _ _ => 4⟩ [] [] = true)
    ∧ (false = true →
        (preservesResourceLen ⟨false, false, fun _ _ _ _ => 0, fun _ => 0, id, id⟩
            ⟨fun _ => 0, fun _ => 0, fun _ _ => true, fun _ _ => 4⟩ [] [] = true ↔
          Trace.resourceLength ⟨fun _ => 0, fun _ => 0, fun _ _ => true, fun _ _ => 4⟩
              (([] : List MachineInstr).map fun I => id (id I.opcode))
              (([] : List MachineInstr).map fun I => id (id I.opcode)) ≤
            Trace.resourceLength ⟨fun _ => 0, fun _ => 0, fun _ _ => true, fun _ _ => 4⟩ [] []))) :=
  preservesResourceLen_spec ⟨false, false, fun _ _ _ _ => 0, fun _ => 0, id, id⟩
    ⟨fun _ => 0, fun _ => 0, fun _ _ => true, fun _ _ => 4⟩ [] []

/-- With no machine model at all, `doSubstitute` always answers true. -/
theorem doSubstitute_noModel (OptSize : Bool) (TS : TargetSchedModel) (NewSize OldSize : Nat)
    (hM : TS.hasInstrSchedModelOrItineraries = false) :
    doSubstitute OptSize TS NewSize OldSize = true := by
  rw [doSubstitute, hM]
  simp

/-- One step of the driver loop, with the anchor's pattern list and the pattern
loop's outcome given. -/
theorem combineGo_cons_eq (TII : TargetInstrInfo) (TS : TargetSchedModel)
    (MRI : MachineRegisterInfo) (OptSize ML : Bool) (traceAt : Nat → Trace)
    (done rest freed : List MachineInstr) (changed : Bool) (inval : Nat)
    (MI : MachineInstr) (pats : List MachineCombinerPattern) (r : StepResult)
    (hPats : TII.getMachineCombinerPatterns MI = some pats)
    (hTry : tryPatterns TII TS MRI OptSize ML (traceAt inval) MI pats = some r) :
    combineGo TII TS MRI OptSize ML traceAt done (MI :: rest) changed inval freed =
      match r.accepted with
      | none => combineGo TII TS MRI OptSize ML traceAt (done ++ [MI]) rest changed
          (inval + r.invalidations) (freed ++ r.freed)
      | some (InsInstrs, DelInstrs) =>
        combineGo TII TS MRI OptSize ML traceAt
          (eraseAll ((done ++ InsInstrs) ++ [MI]) DelInstrs)
          (eraseAll rest DelInstrs) true (inval + r.invalidations) (freed ++ r.freed) := by
  rw [combineGo, hPats]
  simp only [hTry, List.append_assoc]

/-- Field accounting for the pattern loop: exactly one substitution and one trace
invalidation occur when a candidate is accepted, and none otherwise. -/
theorem tryPatterns_fields (TII : TargetInstrInfo) (TS : TargetSchedModel)
    (MRI : MachineRegisterInfo) (OptSize ML : Bool) (t : Trace) (MI : MachineInstr) :
    ∀ (pats : List MachineCombinerPattern) (r : StepResult),
      tryPatterns TII TS MRI OptSize ML t MI pats = some r →
      (r.accepted.isSome = true → r.substitutions = 1 ∧ r.invalidations = 1)
      ∧ (r.accepted.isSome = false → r.substitutions = 0 ∧ r.invalidations = 0) := by
  intro pats
  induction pats with
  | nil =>
    intro r hr
    rw [tryPatterns] at hr
    cases hr
    exact ⟨fun h => by simp at h, fun _ => ⟨rfl, rfl⟩⟩
  | cons P Ps ih =>
    intro r hr
    simp only [tryPatterns] at hr
    split at hr
    · exact ih r hr
    · split at hr
      · cases hr
        exact ⟨fun _ => ⟨rfl, rfl⟩, fun h => by simp at h⟩
      · split at hr
        · exact absurd hr (by simp)
        · split at hr
          · cases hr
            exact ⟨fun _ => ⟨rfl, rfl⟩, fun h => by simp at h⟩
          · split at hr
            · exact absurd hr (by simp)
            · rename_i r' hr'
              cases hr
              exact ih r' hr'

/-- Inserting before an instruction that is not in the prefix lands between the
prefix and that instruction. -/
theorem insertAllBefore_of_not_mem (MI : MachineInstr) (Ins : List MachineInstr) :
    ∀ (done rest : List MachineInstr), MI ∉ done →
      insertAllBefore (done ++ MI :: rest) MI Ins = done ++ (Ins ++ MI :: rest) := by
  intro done
  induction done with
  | nil =>
    intro rest _
    rw [List.nil_append, insertAllBefore, if_pos rfl, List.nil_append]
  | cons x xs ih =>
    intro rest h
    rw [List.cons_append, insertAllBefore]
    have hx : ¬ x = MI := by
      intro he
      apply h
      rw [← he]
      exact List.mem_cons_self x xs
    rw [if_neg hx, ih rest (fun hm => h (List.mem_cons_of_mem x hm)), List.cons_append]

/-- C4: with the code-size flag set and a candidate that has strictly fewer new
than deleted instructions, the per-pattern step accepts immediately; the result is
invariant under arbitrary changes to the scheduling model, the register info and
the block trace, so neither the critical-path check nor the resource-length check
is consulted and no block trace is needed for the decision. -/
theorem combine_optSize_acceptsImmediately
    (TII : TargetInstrInfo) (TS : TargetSchedModel) (MRI : MachineRegisterInfo)
    (ML : Bool) (t : Trace) (MI : MachineInstr) (P : MachineCombinerPattern)
    (Ps : List MachineCombinerPattern)
    (hLt : (TII.genAlternativeCodeSequence MI P).1.length <
        (TII.genAlternativeCodeSequence MI P).2.1.length)
    (hNE : (TII.genAlternativeCodeSequence MI P).1.length ≠ 0) :
    (tryPatterns TII TS MRI true ML t MI (P :: Ps) =
      some ⟨some ((TII.genAlternativeCodeSequence MI P).1,
                  (TII.genAlternativeCodeSequence MI P).2.1), [], 1, 1⟩)
    ∧ (∀ (TS' : TargetSchedModel) (MRI' : MachineRegisterInfo) (t' : Trace),
        tryPatterns TII TS' MRI' true ML t' MI (P :: Ps) =
          tryPatterns TII TS MRI true ML t MI (P :: Ps)) := by
  have key : ∀ (TS₀ : TargetSchedModel) (MRI₀ : MachineRegisterInfo) (t₀ : Trace),
      tryPatterns TII TS₀ MRI₀ true ML t₀ MI (P :: Ps) =
        some ⟨some ((TII.genAlternativeCodeSequence MI P).1,
                    (TII.genAlternativeCodeSequence MI P).2.1), [], 1, 1⟩ := by
    intro TS₀ MRI₀ t₀
    have hds : doSubstitute true TS₀ (TII.genAlternativeCodeSequence MI P).1.length
        (TII.genAlternativeCodeSequence MI P).2.1.length = true := by
      simp [doSubstitute, hLt]
    simp only [tryPatterns, hds, Bool.or_true, if_true, if_neg hNE]
  exact ⟨key TS MRI t, fun TS' MRI' t' => (key TS' MRI' t').trans (key TS MRI t).symm⟩

/-- Concrete instantiation of `combine_optSize_acceptsImmediately`. -/
theorem combine_optSize_acceptsImmediately_witness :
    (tryPatterns wTII4 wTS1 wMRI1 true false wTrace1 wRoot1 [MachineCombinerPattern.Other 0] =
      some ⟨some ([wNewRoot1], [wRoot1, wDel2]), [], 1, 1⟩)
    ∧ (∀ (TS' : TargetSchedModel) (MRI' : MachineRegisterInfo) (t' : Trace),
        tryPatterns wTII4 TS' MRI' true false t' wRoot1 [MachineCombinerPattern.Other 0] =
          tryPatterns wTII4 wTS1 wMRI1 true false wTrace1 wRoot1
            [MachineCombinerPattern.Other 0]) :=
  combine_optSize_acceptsImmediately wTII4 wTS1 wMRI1 false wTrace1 wRoot1
    (MachineCombinerPattern.Other 0) [] (by decide) (by decide)

/-- C3: with no scheduling model available (neither instruction-level model nor
itineraries), the per-anchor pattern loop accepts the first pattern whose
synthesized candidate is non-empty and never rejects or releases a candidate
(every tried non-empty candidate is accepted), and the driver splices the accepted
candidate into the block. -/
theorem combine_noSchedModel_alwaysAccepts
    (TII : TargetInstrInfo) (TS : TargetSchedModel) (MRI : MachineRegisterInfo)
    (OptSize ML : Bool) (t : Trace) (MI : MachineInstr)
    (pats : List MachineCombinerPattern)
    (hM : TS.hasInstrSchedModelOrItineraries = false) :
    (tryPatterns TII TS MRI OptSize ML t MI pats =
      match pats.find?
          (fun P => !decide ((TII.genAlternativeCodeSequence MI P).1.length = 0)) with
      | some P => some ⟨some ((TII.genAlternativeCodeSequence MI P).1,
                              (TII.genAlternativeCodeSequence MI P).2.1), [], 1, 1⟩
      | none => some ⟨none, [], 0, 0⟩)
    ∧ (∀ (traceAt : Nat → Trace) (done rest freed : List MachineInstr) (changed : Bool)
          (inval : Nat) (P : MachineCombinerPattern),
        TII.getMachineCombinerPatterns MI = some pats →
        pats.find?
            (fun P => !decide ((TII.genAlternativeCodeSequence MI P).1.length = 0)) = some P →
        combineGo TII TS MRI OptSize ML traceAt done (MI :: rest) changed inval freed =
          combineGo TII TS MRI OptSize ML traceAt
            (eraseAll ((done ++ (TII.genAlternativeCodeSequence MI P).1) ++ [MI])
              (TII.genAlternativeCodeSequence MI P).2.1)
            (eraseAll rest (TII.genAlternativeCodeSequence MI P).2.1)
            true (inval + 1) freed) := by
  have key : ∀ (t₀ : Trace) (pats₀ : List MachineCombinerPattern),
      tryPatterns TII TS MRI OptSize ML t₀ MI pats₀ =
        match pats₀.find?
            (fun P => !decide ((TII.genAlternativeCodeSequence MI P).1.length = 0)) with
        | some P => some ⟨some ((TII.genAlternativeCodeSequence MI P).1,
                                (TII.genAlternativeCodeSequence MI P).2.1), [], 1, 1⟩
        | none => some ⟨none, [], 0, 0⟩ := by
    intro t₀ pats₀
    induction pats₀ with
    | nil => rfl
    | cons P Ps ih =>
      by_cases hz : (TII.genAlternativeCodeSequence MI P).1.length = 0
      · rw [tryPatterns]
        simp only [if_pos hz, List.find?_cons, hz, decide_True, Bool.not_true]
        exact ih
      · rw [tryPatterns]
        have hds : doSubstitute OptSize TS (TII.genAlternativeCodeSequence MI P).1.length
            (TII.genAlternativeCodeSequence MI P).2.1.length = true :=
          doSubstitute_noModel _ _ _ _ hM
        simp only [if_neg hz, hds, Bool.or_true, if_true, List.find?_cons, hz,
          decide_False, Bool.not_false]
        simp
  refine ⟨key t pats, ?_⟩
  intro traceAt done rest freed changed inval P hPats hFind
  have hTry := key (traceAt inval) pats
  rw [hFind] at hTry
  rw [combineGo_cons_eq TII TS MRI OptSize ML traceAt done rest freed changed inval MI pats
    ⟨some ((TII.genAlternativeCodeSequence MI P).1, (TII.genAlternativeCodeSequence MI P).2.1),
      [], 1, 1⟩ hPats hTry]
  simp

/-- Concrete instantiation of `combine_noSchedModel_alwaysAccepts`. -/
theorem combine_noSchedModel_alwaysAccepts_witness :
    (tryPatterns wTII4 wTS0 wMRI1 false false wTrace1 wRoot1 [MachineCombinerPattern.Other 0] =
      match ([MachineCombinerPattern.Other 0]).find?
          (fun P => !decide ((wTII4.genAlternativeCodeSequence wRoot1 P).1.length = 0)) with
      | some P => some ⟨some ((wTII4.genAlternativeCodeSequence wRoot1 P).1,
                              (wTII4.genAlternativeCodeSequence wRoot1 P).2.1), [], 1, 1⟩
      | none => some ⟨none, [], 0, 0⟩)
    ∧ (∀ (traceAt : Nat → Trace) (done rest freed : List MachineInstr) (changed : Bool)
          (inval : Nat) (P : MachineCombinerPattern),
        wTII4.getMachineCombinerPatterns wRoot1 = some [MachineCombinerPattern.Other 0] →
        ([MachineCombinerPattern.Other 0]).find?
            (fun P => !decide ((wTII4.genAlternativeCodeSequence wRoot1 P).1.length = 0)) =
              some P →
        combineGo wTII4 wTS0 wMRI1 false false traceAt done (wRoot1 :: rest) changed inval freed =
          combineGo wTII4 wTS0 wMRI1 false false traceAt
            (eraseAll ((done ++ (wTII4.genAlternativeCodeSequence wRoot1 P).1) ++ [wRoot1])
              (wTII4.genAlternativeCodeSequence wRoot1 P).2.1)
            (eraseAll rest (wTII4.genAlternativeCodeSequence wRoot1 P).2.1)
            true (inval + 1) freed) :=
  combine_noSchedModel_alwaysAccepts wTII4 wTS0 wMRI1 false false wTrace1 wRoot1
    [MachineCombinerPattern.Other 0] rfl

/-- C9: when a candidate is rejected by the cost model, that attempt leaves the
block, the changed flag and the invalidation count unchanged: the candidate's new
instructions are never attached to the block, all of them are released (appended
to the freed list) before the next pattern is tried, and a fully rejected anchor
visit performs no substitution and no invalidation.  (The per-candidate
register-index map is local to each pattern iteration in the source — declared
inside the pattern loop and cleared at its end — and is modelled here as the
fresh third component that `genAlternativeCodeSequence` produces per pattern.) -/
theorem combine_rejection_step_spec
    (TII : TargetInstrInfo) (TS : TargetSchedModel) (MRI : MachineRegisterInfo)
    (OptSize ML : Bool) (t : Trace) (MI : MachineInstr) (P : MachineCombinerPattern)
    (Ps : List MachineCombinerPattern) (imp : Bool)
    (hNE : (TII.genAlternativeCodeSequence MI P).1.length ≠ 0)
    (hTP : (ML && TII.isThroughputPattern P) = false)
    (hDS : doSubstitute OptSize TS (TII.genAlternativeCodeSequence MI P).1.length
        (TII.genAlternativeCodeSequence MI P).2.1.length = false)
    (hImp : improvesCriticalPathLen TS MRI MI t (TII.genAlternativeCodeSequence MI P).1
        (TII.genAlternativeCodeSequence MI P).2.1 (TII.genAlternativeCodeSequence MI P).2.2 P =
        some imp)
    (hRej : (imp && preservesResourceLen TS t (TII.genAlternativeCodeSequence MI P).1
        (TII.genAlternativeCodeSequence MI P).2.1) = false) :
    (tryPatterns TII TS MRI OptSize ML t MI (P :: Ps) =
      match tryPatterns TII TS MRI OptSize ML t MI Ps with
      | none => none
      | some r => some ⟨r.accepted, (TII.genAlternativeCodeSequence MI P).1 ++ r.freed,
          r.substitutions, r.invalidations⟩)
    ∧ (∀ (traceAt : Nat → Trace) (done rest freed : List MachineInstr) (changed : Bool)
          (inval : Nat) (pats : List MachineCombinerPattern) (r : StepResult),
        TII.getMachineCombinerPatterns MI = some pats →
        tryPatterns TII TS MRI OptSize ML (traceAt inval) MI pats = some r →
        r.accepted = none →
        combineGo TII TS MRI OptSize ML traceAt done (MI :: rest) changed inval freed =
          combineGo TII TS MRI OptSize ML traceAt (done ++ [MI]) rest changed
            (inval + r.invalidations) (freed ++ r.freed))
    ∧ (∀ (t' : Trace) (pats : List MachineCombinerPattern) (r : StepResult),
        tryPatterns TII TS MRI OptSize ML t' MI pats = some r →
        r.accepted = none →
        r.substitutions = 0 ∧ r.invalidations = 0) := by
  refine ⟨?_, ?_, ?_⟩
  · simp only [tryPatterns, if_neg hNE, hTP, Bool.false_or, hDS, Bool.false_eq_true,
      if_false, hImp, hRej]
  · intro traceAt done rest freed changed inval pats r hPats hTry hAcc
    rw [combineGo_cons_eq TII TS MRI OptSize ML traceAt done rest freed changed inval MI pats r
      hPats hTry, hAcc]
  · intro t' pats r hTry' hAcc
    have h := tryPatterns_fields TII TS MRI OptSize ML t' MI pats r hTry'
    exact h.2 (by rw [hAcc]; rfl)

/-- Concrete instantiation of `combine_rejection_step_spec`: a candidate that
passes the critical-path check but increases resource length, hence is rejected. -/
theorem combine_rejection_step_spec_witness :
    (tryPatterns wTII4 wTS1 wMRI1 false false wTraceR wRoot1
        [MachineCombinerPattern.Other 0] =
      match tryPatterns wTII4 wTS1 wMRI1 false false wTraceR wRoot1 [] with
      | none => none
      | some r => some ⟨r.accepted,
          (wTII4.genAlternativeCodeSequence wRoot1 (MachineCombinerPattern.Other 0)).1 ++ r.freed,
          r.substitutions, r.invalidations⟩)
    ∧ (∀ (traceAt : Nat → Trace) (done rest freed : List MachineInstr) (changed : Bool)
          (inval : Nat) (pats : List MachineCombinerPattern) (r : StepResult),
        wTII4.getMachineCombinerPatterns wRoot1 = some pats →
        tryPatterns wTII4 wTS1 wMRI1 false false (traceAt inval) wRoot1 pats = some r →
        r.accepted = none →
        combineGo wTII4 wTS1 wMRI1 false false traceAt done (wRoot1 :: rest) changed inval freed =
          combineGo wTII4 wTS1 wMRI1 false false traceAt (done ++ [wRoot1]) rest changed
            (inval + r.invalidations) (freed ++ r.freed))
    ∧ (∀ (t' : Trace) (pats : List MachineCombinerPattern) (r : StepResult),
        tryPatterns wTII4 wTS1 wMRI1 false false t' wRoot1 pats = some r →
        r.accepted = none →
        r.substitutions = 0 ∧ r.invalidations = 0) :=
  combine_rejection_step_spec wTII4 wTS1 wMRI1 false false wTraceR wRoot1
    (MachineCombinerPattern.Other 0) [] true (by decide) rfl rfl rfl rfl

/-- C6: `getDepth` processes the candidate sequence in order and assigns each
instruction a depth equal to the maximum, over its virtual-register use operands,
of defDepth + operandLatency — a register defined earlier inside the candidate
(per the index map) uses that earlier instruction's just-computed depth, a
register with a unique non-PHI external definition uses the trace's cached depth
of that definition, and a register whose definition is a PHI or cannot be found
contributes 0 — and returns the depth assigned to the last instruction.  Stated
as a refinement against the spec-worded `computeDepthSpec`, under the candidate
invariant that the index map points strictly earlier. -/
theorem getDepth_refines_spec (TS : TargetSchedModel) (MRI : MachineRegisterInfo) (t : Trace)
    (InsInstrs : List MachineInstr) (InstrIdxForVirtReg : List (Nat × Nat))
    (hM : TS.hasInstrSchedModelOrItineraries = true)
    (hNE : InsInstrs ≠ [])
    (hWF : mapWellFormed InsInstrs InstrIdxForVirtReg) :
    getDepth TS MRI InsInstrs InstrIdxForVirtReg t =
      some (computeDepthSpec TS MRI t InsInstrs InstrIdxForVirtReg) := by
  have hyp0 : ∀ (j : Fin InsInstrs.length), ∀ MO ∈ (InsInstrs.get j).operands,
      (MO.isReg && isVirtualRegister MO.reg && MO.isUse) = true →
      ∀ idx, InstrIdxForVirtReg.lookup MO.reg = some idx →
        idx < ([] : List Nat).length + j.val ∧ idx < InsInstrs.length := by
    intro j MO hm hr idx hl
    have h := hWF j MO hm hr
    rw [hl] at h
    have hj : idx < j.val := by simpa using h
    exact ⟨by simpa using hj, Nat.lt_trans hj j.isLt⟩
  have hloop := getDepthLoop_eq_spec TS MRI t InsInstrs InstrIdxForVirtReg InsInstrs [] hyp0
  rw [getDepth, hM]
  simp only [Bool.not_true, Bool.false_eq_true, if_false, hloop]
  set L := InsInstrs.foldl
    (fun ds I => ds ++ [specInstrDepth TS MRI t InsInstrs InstrIdxForVirtReg ds I])
    ([] : List Nat) with hL
  have hlen : L.length = InsInstrs.length := by
    rw [hL, specDepthFold_length TS MRI t InsInstrs InstrIdxForVirtReg InsInstrs []]
    simp
  have hLne : L ≠ [] := by
    intro h
    have hz : InsInstrs.length = 0 := by
      rw [← hlen, h]
      rfl
    exact hNE (List.length_eq_zero.mp hz)
  obtain ⟨y, hy⟩ := Option.isSome_iff_exists.mp (List.getLast?_isSome.mpr hLne)
  have hidx : L[InsInstrs.length - 1]? = some y := by
    rw [← hlen, ← List.getLast?_eq_getElem? L, hy]
  rw [hidx]
  have hspec : computeDepthSpec TS MRI t InsInstrs InstrIdxForVirtReg = y := by
    simp only [computeDepthSpec]
    rw [← hL, List.getLastD_eq_getLast? 0 L, hy]
    rfl
  rw [hspec]

/-- Concrete instantiation of `getDepth_refines_spec`: a two-instruction
candidate whose second instruction uses the register the first defines, tracked
by the index map. -/
theorem getDepth_refines_spec_witness :
    getDepth wTS1 wMRI1 [wDef1, wUse2] [(2 ^ 31, 0)] wTrace1 =
      some (computeDepthSpec wTS1 wMRI1 wTrace1 [wDef1, wUse2] [(2 ^ 31, 0)]) :=
  getDepth_refines_spec wTS1 wMRI1 wTrace1 [wDef1, wUse2] [(2 ^ 31, 0)] rfl (by decide)
    (by unfold mapWellFormed; decide)

/-- C7: `getLatency` returns the maximum, over every virtual register defined by
the new root, of that register's latency term (0 when the new root defines no
virtual register); each term uses the precise operand latency between the new
root's definition and the first consuming use (the owner of the second entry of
the register's use/def list — the new root itself is not yet inserted) when the
trace recognizes that consumer as in-trace dependent on the old root, and falls
back to the new root's full no-operand-context instruction latency otherwise. -/
theorem getLatency_refines_spec (TS : TargetSchedModel) (MRI : MachineRegisterInfo)
    (Root NewRoot : MachineInstr) (t : Trace)
    (hM : TS.hasInstrSchedModelOrItineraries = true)
    (hChains : ∀ MO ∈ NewRoot.operands,
        (MO.isReg && isVirtualRegister MO.reg && MO.isDef) = true →
        2 ≤ (MRI.regUseDefChain MO.reg).length) :
    (getLatency TS MRI Root NewRoot t = some (getLatencySpec TS MRI t Root NewRoot))
    ∧ (NewRoot.operands.filter
          (fun MO => MO.isReg && isVirtualRegister MO.reg && MO.isDef) = [] →
        getLatency TS MRI Root NewRoot t = some 0) := by
  have hmain : getLatency TS MRI Root NewRoot t =
      some (getLatencySpec TS MRI t Root NewRoot) := by
    rw [getLatency, hM]
    simp only [Bool.not_true, Bool.false_eq_true, if_false]
    exact getLatencyLoop_eq_spec TS MRI t Root NewRoot NewRoot.operands 0 hChains
  refine ⟨hmain, fun hempty => ?_⟩
  rw [hmain]
  simp only [getLatencySpec, hempty, List.map_nil, List.foldl_nil]

/-- Concrete instantiation of `getLatency_refines_spec`. -/
theorem getLatency_refines_spec_witness :
    (getLatency wTS1 wMRI2 wRoot1 wNR2 wTrace1 =
      some (getLatencySpec wTS1 wMRI2 wTrace1 wRoot1 wNR2))
    ∧ (wNR2.operands.filter
          (fun MO => MO.isReg && isVirtualRegister MO.reg && MO.isDef) = [] →
        getLatency wTS1 wMRI2 wRoot1 wNR2 wTrace1 = some 0) :=
  getLatency_refines_spec wTS1 wMRI2 wRoot1 wNR2 wTrace1 rfl (by decide)

/-- C8: at most one pattern is applied per anchor per traversal visit.  Upon
acceptance the candidate's new instructions are inserted immediately before the
anchor in their given relative order and every old instruction is erased (the
final block segment equals erasing the old instructions from the block with the
new instructions spliced in before the anchor), exactly one trace invalidation is
recorded, the changed flag becomes true, no further patterns are tried once one
fires (the result for a fired head pattern ignores the remaining patterns), and
traversal resumes at the instruction after the anchor's original position. -/
theorem combine_acceptance_step_spec
    (TII : TargetInstrInfo) (TS : TargetSchedModel) (MRI : MachineRegisterInfo)
    (OptSize ML : Bool) (traceAt : Nat → Trace)
    (done rest freed : List MachineInstr) (changed : Bool) (inval : Nat)
    (MI : MachineInstr) (pats : List MachineCombinerPattern) (r : StepResult)
    (InsInstrs DelInstrs : List MachineInstr)
    (hPats : TII.getMachineCombinerPatterns MI = some pats)
    (hTry : tryPatterns TII TS MRI OptSize ML (traceAt inval) MI pats = some r)
    (hAcc : r.accepted = some (InsInstrs, DelInstrs))
    (hDone : MI ∉ done) :
    (combineGo TII TS MRI OptSize ML traceAt done (MI :: rest) changed inval freed =
      combineGo TII TS MRI OptSize ML traceAt
        (eraseAll ((done ++ InsInstrs) ++ [MI]) DelInstrs)
        (eraseAll rest DelInstrs) true (inval + r.invalidations) (freed ++ r.freed))
    ∧ (r.substitutions = 1 ∧ r.invalidations = 1)
    ∧ (eraseAll ((done ++ InsInstrs) ++ [MI]) DelInstrs ++ eraseAll rest DelInstrs =
        eraseAll (insertAllBefore (done ++ MI :: rest) MI InsInstrs) DelInstrs)
    ∧ (∀ (t' : Trace) (pats' : List MachineCombinerPattern) (r' : StepResult),
        tryPatterns TII TS MRI OptSize ML t' MI pats' = some r' → r'.substitutions ≤ 1)
    ∧ (∀ (t' : Trace) (P : MachineCombinerPattern) (tail : List MachineCombinerPattern)
          (out : StepResult),
        tryPatterns TII TS MRI OptSize ML t' MI [P] = some out →
        out.accepted.isSome = true →
        tryPatterns TII TS MRI OptSize ML t' MI (P :: tail) = some out) := by
  refine ⟨?_, ?_, ?_, ?_, ?_⟩
  · rw [combineGo_cons_eq TII TS MRI OptSize ML traceAt done rest freed changed inval MI pats r
      hPats hTry, hAcc]
  · have h := tryPatterns_fields TII TS MRI OptSize ML (traceAt inval) MI pats r hTry
    exact h.1 (by rw [hAcc]; rfl)
  · rw [insertAllBefore_of_not_mem MI InsInstrs done rest hDone]
    simp only [eraseAll, List.filter_append, List.append_assoc, List.filter_cons]
    by_cases hm : MI ∈ DelInstrs <;> simp [hm]
  · intro t' pats' r' hTry'
    have h := tryPatterns_fields TII TS MRI OptSize ML t' MI pats' r' hTry'
    cases hs : r'.accepted.isSome with
    | false =>
      rw [(h.2 hs).1]
      exact Nat.zero_le 1
    | true =>
      rw [(h.1 hs).1]
  · intro t' P tail out h hsome
    simp only [tryPatterns] at h
    split at h
    · cases h
      simp at hsome
    · rename_i hno
      split at h
      · rename_i hcond
        simp only [tryPatterns, if_neg hno, if_pos hcond]
        exact h
      · rename_i hcond
        split at h
        · exact absurd h (by simp)
        · rename_i imp heq
          split at h
          · rename_i hc
            simp only [tryPatterns, if_neg hno, if_neg hcond, heq, hc, if_true]
            exact h
          · cases h
            simp at hsome

/-- Concrete instantiation of `combine_acceptance_step_spec`: a one-instruction
block whose anchor is combined (no scheduling model, so the candidate is accepted
outright). -/
theorem combine_acceptance_step_spec_witness :
    (combineGo wTII4 wTS0 wMRI1 false false (fun _ => wTrace1) [] [wRoot1] false 0 [] =
      combineGo wTII4 wTS0 wMRI1 false false (fun _ => wTrace1)
        (eraseAll (([] ++ [wNewRoot1]) ++ [wRoot1]) [wRoot1, wDel2])
        (eraseAll [] [wRoot1, wDel2]) true (0 + 1) ([] ++ []))
    ∧ ((1 : Nat) = 1 ∧ (1 : Nat) = 1)
    ∧ (eraseAll (([] ++ [wNewRoot1]) ++ [wRoot1]) [wRoot1, wDel2] ++
          eraseAll [] [wRoot1, wDel2] =
        eraseAll (insertAllBefore ([] ++ wRoot1 :: []) wRoot1 [wNewRoot1]) [wRoot1, wDel2])
    ∧ (∀ (t' : Trace) (pats' : List MachineCombinerPattern) (r' : StepResult),
        tryPatterns wTII4 wTS0 wMRI1 false false t' wRoot1 pats' = some r' →
        r'.substitutions ≤ 1)
    ∧ (∀ (t' : Trace) (P : MachineCombinerPattern) (tail : List MachineCombinerPattern)
          (out : StepResult),
        tryPatterns wTII4 wTS0 wMRI1 false false t' wRoot1 [P] = some out →
        out.accepted.isSome = true →
        tryPatterns wTII4 wTS0 wMRI1 false false t' wRoot1 (P :: tail) = some out) :=
  combine_acceptance_step_spec wTII4 wTS0 wMRI1 false false (fun _ => wTrace1)
    [] [] [] false 0 wRoot1 [MachineCombinerPattern.Other 0]
    ⟨some ([wNewRoot1], [wRoot1, wDel2]), [], 1, 1⟩ [wNewRoot1] [wRoot1, wDel2]
    rfl rfl rfl (by decide)

/-- C10: `getLatency` has a defined result exactly under the unstated precondition
that every virtual register defined by the new root has at least two entries in
the register info's use/def operand list for that register — the code takes the
first register-iterator entry, increments once, and dereferences, which reads past
the end of the list otherwise (the null check on the obtained user does not guard
the iterator itself). -/
theorem getLatency_requires_two_chain_entries (TS : TargetSchedModel)
    (MRI : MachineRegisterInfo) (Root NewRoot : MachineInstr) (t : Trace)
    (hM : TS.hasInstrSchedModelOrItineraries = true) :
    (getLatency TS MRI Root NewRoot t).isSome = true ↔
      ∀ MO ∈ NewRoot.operands,
        (MO.isReg && isVirtualRegister MO.reg && MO.isDef) = true →
        2 ≤ (MRI.regUseDefChain MO.reg).length := by
  rw [getLatency, hM]
  simp only [Bool.not_true, Bool.false_eq_true, if_false]
  exact getLatencyLoop_isSome TS MRI t Root NewRoot NewRoot.operands 0

/-- Concrete instantiation of `getLatency_requires_two_chain_entries`: a new root
defining one virtual register whose use/def list has a single entry, so the
dereference past the end is reached and the result is undefined. -/
theorem getLatency_requires_two_chain_entries_witness :
    (getLatency ⟨true, false, fun _ _ _ _ => 1, fun _ => 2, id, id⟩
        ⟨fun _ => none, fun _ => [some ⟨10, 5, [], false⟩]⟩
        ⟨10, 5, [], false⟩ ⟨12, 7, [⟨true, 2 ^ 31, true⟩], false⟩
        ⟨fun _ => 3, fun _ => 1, fun _ _ => true, fun _ _ => 0⟩).isSome = true ↔
      ∀ MO ∈ [(⟨true, 2 ^ 31, true⟩ : MachineOperand)],
        (MO.isReg && isVirtualRegister MO.reg && MO.isDef) = true →
        2 ≤ ([some (⟨10, 5, [], false⟩ : MachineInstr)]).length :=
  getLatency_requires_two_chain_entries ⟨true, false, fun _ _ _ _ => 1, fun _ => 2, id, id⟩
    ⟨fun _ => none, fun _ => [some ⟨10, 5, [], false⟩]⟩
    ⟨10, 5, [], false⟩ ⟨12, 7, [⟨true, 2 ^ 31, true⟩], false⟩
    ⟨fun _ => 3, fun _ => 1, fun _ _ => true, fun _ _ => 0⟩ rfl
